import Mathlib

/-!
Verification of the FileTreer tree-scan-and-render engine.

This file is a shallow embedding of the FileTreer repository
(`config.py`, `filetree_generator.py`) in Lean 4, together with proofs
about the embedded definitions.

Modelling conventions:
* Python strings are Lean `String`s, and every Python string operation the
  program uses (`startswith`, `endswith`, `in`, slicing, `lower`, `<=` on
  strings, `fnmatch.fnmatch`) is re-implemented here on `String.data`
  (a `List Char`) with code-point arithmetic, matching CPython's code-point
  semantics on POSIX (`os.path.normcase` is the identity there).
  `str.lower` is modelled on ASCII letters, which is what every input
  appearing in this development uses.
* The filesystem snapshot seen by a scan is an inductive tree `FSNode`;
  `os.scandir` returns the stored child list in its stored order, and
  `entry.is_dir()` reads the stored kind.  A scan of an unchanging
  filesystem is thereby a pure function of the snapshot.
* Machine integers do not occur: all counts and depths are small Python
  `int`s used as sizes, modelled as `Nat`.
-/

/-! ### Python string primitives (code-point based, kernel-computable) -/

/-- ASCII lower-casing of one character (model of `str.lower` per char). -/
def chLower (c : Char) : Char :=
  if 65 ≤ c.toNat && c.toNat ≤ 90 then Char.ofNat (c.toNat + 32) else c

/-- Model of Python `s.lower()`. -/
def strLower (s : String) : String := ⟨s.data.map chLower⟩

/-- Lexicographic code-point comparison of character lists,
model of Python `<=` on strings. -/
def charListLE : List Char → List Char → Bool
  | [], _ => true
  | _ :: _, [] => false
  | a :: as, b :: bs =>
    if a.toNat < b.toNat then true
    else if b.toNat < a.toNat then false
    else charListLE as bs

/-- Model of Python `a <= b` on strings. -/
def strLE (a b : String) : Bool := charListLE a.data b.data

/-- Model of Python `s.startswith(c)` for a one-character c. -/
def startsWithCh (s : String) (c : Char) : Bool :=
  match s.data with
  | [] => false
  | a :: _ => a.toNat == c.toNat

/-- Model of Python `c in s` for a single character c. -/
def strContainsCh (s : String) (c : Char) : Bool :=
  s.data.any (fun a => a.toNat == c.toNat)

/-- Model of Python `p.endswith('/')`. -/
def strEndsWithSlash (p : String) : Bool :=
  match p.data.getLast? with
  | some c => c.toNat == 47
  | none => false

/-- Model of Python `p[:-1]`. -/
def strDropLast (p : String) : String := ⟨p.data.dropLast⟩

/-- Model of Python `'\n'.join(lines)`. -/
def joinNL (lines : List String) : String :=
  match lines with
  | [] => ""
  | l :: ls => ls.foldl (fun acc x => acc ++ "\n" ++ x) l

/-- Model of Python `'    ' * n`. -/
def repeatStr (s : String) (n : Nat) : String :=
  match n with
  | 0 => ""
  | n + 1 => s ++ repeatStr s n

/-! ### `fnmatch.fnmatch` (glob semantics: `*`, `?`, character classes)

The matcher below follows CPython's `fnmatch.translate`: `*` matches any
(possibly empty) sequence, `?` any single character, `[...]` a character
class with optional leading `!` negation and `a-b` ranges, where the
closing bracket is searched as in `translate` (an immediately leading `]`,
possibly after `!`, is literal) and an unterminated `[` is a literal
bracket. -/

/-- Scan for the closing `]` of a character class; returns the class body
and the remainder of the pattern. -/
def findClose : List Char → Option (List Char × List Char)
  | [] => none
  | c :: t =>
    if c.toNat == 93 then some ([], t)
    else
      match findClose t with
      | some (b, r) => some (c :: b, r)
      | none => none

/-- Split a character class just after `[`: negation flag, body, rest. -/
def splitClass (cs : List Char) : Option (Bool × List Char × List Char) :=
  match cs with
  | [] => none
  | c :: rest =>
    if c.toNat == 33 then  -- leading '!'
      match rest with
      | [] => none
      | d :: rest2 =>
        if d.toNat == 93 then (findClose rest2).map fun br => (true, d :: br.1, br.2)
        else (findClose rest).map fun br => (true, br.1, br.2)
    else if c.toNat == 93 then (findClose rest).map fun br => (false, c :: br.1, br.2)
    else (findClose cs).map fun br => (false, br.1, br.2)

/-- Membership of a character in a class body (with `a-b` ranges). -/
def matchClass : List Char → Char → Bool
  | [], _ => false
  | a :: '-' :: b :: rest, c =>
    (a.toNat ≤ c.toNat && c.toNat ≤ b.toNat) || matchClass rest c
  | a :: rest, c => (a.toNat == c.toNat) || matchClass rest c

/-- Fuelled glob matcher; each step consumes pattern or subject, so fuel
`|pattern| + |subject| + 1` always suffices. -/
def globMatchF : Nat → List Char → List Char → Bool
  | 0, _, _ => false
  | _ + 1, [], s => s.isEmpty
  | f + 1, p :: ps, s =>
    if p.toNat == 42 then  -- '*'
      globMatchF f ps s ||
        (match s with
         | [] => false
         | _ :: t => globMatchF f (p :: ps) t)
    else if p.toNat == 63 then  -- '?'
      match s with
      | [] => false
      | _ :: t => globMatchF f ps t
    else if p.toNat == 91 then  -- '['
      match splitClass ps with
      | some (neg, body, rest) =>
        (match s with
         | [] => false
         | c :: t => (matchClass body c != neg) && globMatchF f rest t)
      | none =>
        (match s with
         | [] => false
         | c :: t => (c.toNat == 91) && globMatchF f ps t)
    else
      match s with
      | [] => false
      | c :: t => (p.toNat == c.toNat) && globMatchF f ps t

/-- Model of Python `fnmatch.fnmatch(name, pat)` (POSIX `normcase` = id). -/
def fnmatch (name pat : String) : Bool :=
  globMatchF (pat.data.length + name.data.length + 1) pat.data name.data

/-! ### `config.py` -/

/-- `Config.DEFAULT_IGNORE_PATTERNS` (config.py lines 15-24). -/
def DEFAULT_IGNORE_PATTERNS : List String :=
  [".git", ".gitignore", "__pycache__", "*.pyc", "node_modules",
   ".vscode", ".idea", ".DS_Store"]

/-- Configuration fields used by the generator (config.py lines 33-38).
`none` for `max_depth` / `max_items_per_level` is Python `None`
(unlimited). -/
structure Config where
  ignore_hidden : Bool
  ignore_patterns : List String
  max_depth : Option Nat
  max_items_per_level : Option Nat
  unlimit_root_items : Bool
  output_format : String
deriving DecidableEq, Repr

/-- A persisted-configuration dictionary as read back from JSON: each key
either absent (`none`) or present with a value; for the two numeric keys a
present value may itself be JSON `null` (`some none`). -/
structure StoredConfig where
  ignore_hidden : Option Bool
  ignore_patterns : Option (List String)
  max_depth : Option (Option Nat)
  max_items_per_level : Option (Option Nat)
  unlimit_root_items : Option Bool
  output_format : Option String
deriving DecidableEq, Repr

/-- `Config.from_dict` (config.py lines 57-68): `data.get(key, default)`
with defaults `True`, `DEFAULT_IGNORE_PATTERNS`, `4`, `15`, `True`,
`'ascii'`, and normalisation of unknown output formats to `'ascii'`. -/
def Config.from_dict (data : StoredConfig) : Config :=
  { ignore_hidden := data.ignore_hidden.getD true
    ignore_patterns := data.ignore_patterns.getD DEFAULT_IGNORE_PATTERNS
    max_depth := data.max_depth.getD (some 4)
    max_items_per_level := data.max_items_per_level.getD (some 15)
    unlimit_root_items := data.unlimit_root_items.getD true
    output_format :=
      let f := data.output_format.getD "ascii"
      if f == "ascii" || f == "markdown" then f else "ascii" }

/-! ### `FileTreeGenerator.should_ignore` (filetree_generator.py 23-82) -/

/-- Predicate selecting the exact-match set `_ignore_patterns_set`
(filetree_generator.py 29-30): no `*`, no `?`, not ending in `/`. -/
def isExactPat (p : String) : Bool :=
  !strContainsCh p '*' && !strContainsCh p '?' && !strEndsWithSlash p

/-- The cached exact-match set, kept as a list (membership is by string
value, so a Python set and a list agree). -/
def exactPatterns (pats : List String) : List String := pats.filter isExactPat

/-- `should_ignore` (filetree_generator.py 33-82).  `name` is `path.name`,
`pathStr` is `str(path)` for the path object passed in, `isDir` is the
caller-supplied kind (scan_directory always supplies it). -/
def shouldIgnore (cfg : Config) (name pathStr : String) (isDir : Bool) : Bool :=
  if cfg.ignore_hidden && startsWithCh name '.' then true
  else if (exactPatterns cfg.ignore_patterns).contains name then true
  else
    cfg.ignore_patterns.any fun p =>
      if (exactPatterns cfg.ignore_patterns).contains p then false
      else if strEndsWithSlash p then
        isDir && (fnmatch name (strDropLast p) || fnmatch pathStr (strDropLast p))
      else fnmatch name p || fnmatch pathStr p

/-- The specification's description of `should_ignore`, written from the
spec text (§4.1 "should_ignore"): hidden check; exact equality against
wildcard-free non-`/` patterns; glob semantics for every remaining
pattern, `/`-suffixed ones restricted to directories and matched with the
slash stripped, against the name or the path. -/
def shouldIgnoreSpec (cfg : Config) (name pathStr : String) (isDir : Bool) : Bool :=
  (cfg.ignore_hidden && startsWithCh name '.')
  || cfg.ignore_patterns.any (fun p => isExactPat p && name == p)
  || cfg.ignore_patterns.any (fun p =>
       !isExactPat p &&
       (if strEndsWithSlash p then
          isDir && (fnmatch name (strDropLast p) || fnmatch pathStr (strDropLast p))
        else fnmatch name p || fnmatch pathStr p))

/-! ### Sorting (filetree_generator.py 110-111)

Python's `list.sort` is a stable ascending sort by the key
`(not is_dir, name.lower())`.  Any stable sorting algorithm computes the
same list, so the sort is modelled by stable insertion sort. -/

/-- Stable insertion of `a` into `l`: `a` goes before the first element
not strictly below it, so earlier-listed equals stay first. -/
def pyInsert (le : α → α → Bool) (a : α) : List α → List α
  | [] => [a]
  | b :: l => if le b a && !le a b then b :: pyInsert le a l else a :: b :: l

/-- Stable sort (the function Python's stable `sort` computes). -/
def pySort (le : α → α → Bool) : List α → List α
  | [] => []
  | a :: l => pyInsert le a (pySort le l)

/-! ### Filesystem snapshot and entries -/

/-- One filesystem object: a file, or a directory with its listing (in
`os.scandir` order). -/
inductive FSNode where
  | file (name : String)
  | dir (name : String) (children : List FSNode)

mutual

/-- Decidable equality for the nested inductive `FSNode`. -/
def FSNode.decEq : (a b : FSNode) → Decidable (a = b)
  | .file n, .file m =>
    match String.decEq n m with
    | isTrue h => isTrue (by rw [h])
    | isFalse h => isFalse (by intro hc; cases hc; exact h rfl)
  | .file _, .dir _ _ => isFalse (by intro h; cases h)
  | .dir _ _, .file _ => isFalse (by intro h; cases h)
  | .dir n cs, .dir m ds =>
    match String.decEq n m, FSNode.listDecEq cs ds with
    | isTrue h1, isTrue h2 => isTrue (by rw [h1, h2])
    | isFalse h1, _ => isFalse (by intro hc; cases hc; exact h1 rfl)
    | _, isFalse h2 => isFalse (by intro hc; cases hc; exact h2 rfl)

/-- Decidable equality for lists of `FSNode`. -/
def FSNode.listDecEq : (xs ys : List FSNode) → Decidable (xs = ys)
  | [], [] => isTrue rfl
  | [], _ :: _ => isFalse (by intro h; cases h)
  | _ :: _, [] => isFalse (by intro h; cases h)
  | x :: xs, y :: ys =>
    match FSNode.decEq x y, FSNode.listDecEq xs ys with
    | isTrue h1, isTrue h2 => isTrue (by rw [h1, h2])
    | isFalse h1, _ => isFalse (by intro hc; cases hc; exact h1 rfl)
    | _, isFalse h2 => isFalse (by intro hc; cases hc; exact h2 rfl)

end

instance : DecidableEq FSNode := FSNode.decEq

mutual

/-- Number of nodes in a tree: fuel bound for the scan recursion. -/
def FSNode.size : FSNode → Nat
  | .file _ => 1
  | .dir _ cs => 1 + FSNode.sizeList cs

/-- Total size of a list of trees. -/
def FSNode.sizeList : List FSNode → Nat
  | [] => 0
  | c :: cs => FSNode.size c + FSNode.sizeList cs

end

/-- Base name of a node. -/
def FSNode.name : FSNode → String
  | .file n => n
  | .dir n _ => n

/-- Kind of a node (`entry.is_dir()`). -/
def FSNode.isDir : FSNode → Bool
  | .file _ => false
  | .dir _ _ => true

/-- Children of a node (empty for files). -/
def FSNode.children : FSNode → List FSNode
  | .file _ => []
  | .dir _ cs => cs

/-- Sort key `(not x[1], x[0].name.lower())` (filetree_generator.py 111). -/
def childKey (c : FSNode) : Bool × String := (!c.isDir, strLower c.name)

/-- Comparison on sort keys: lexicographic on the pair, `false < true`. -/
def keyLE (a b : Bool × String) : Bool :=
  (a.1 == b.1 && strLE a.2 b.2) || (!a.1 && b.1)

/-- The child ordering used by the scan's sort. -/
def childLE (a b : FSNode) : Bool := keyLE (childKey a) (childKey b)

/-- One element of `self.file_tree`:
`(relative_path, depth, is_dir, name, has_more_files)`. -/
structure Entry where
  path : String
  depth : Nat
  isDir : Bool
  name : String
  hasMore : Option Bool
deriving DecidableEq, Repr

/-- Path string for a child entry, `os.scandir`'s `entry.path` /
`str(dirPath / name)`. -/
def mkChildPath (dirPath name : String) : String := dirPath ++ "/" ++ name

/-- The non-ignored children (filetree_generator.py 102-108), in listing
order. -/
def survivors (cfg : Config) (fullPath : String) (children : List FSNode) : List FSNode :=
  children.filter fun c => !shouldIgnore cfg c.name (mkChildPath fullPath c.name) c.isDir

/-- The sorted survivors (filetree_generator.py 111). -/
def sortedSurvivors (cfg : Config) (fullPath : String) (children : List FSNode) : List FSNode :=
  pySort childLE (survivors cfg fullPath children)

/-- The recursion guard (filetree_generator.py 98):
`max_depth is not None and current_depth >= max_depth`. -/
def maxDepthReached (cfg : Config) (d : Nat) : Bool :=
  match cfg.max_depth with
  | some m => d ≥ m
  | none => false

/-- The per-level cap (filetree_generator.py 113-125): returns
`(entries_to_process, has_more)`. -/
def capSelect (cfg : Config) (depth : Nat) (es : List FSNode) : List FSNode × Bool :=
  if depth == 0 && cfg.unlimit_root_items then (es, false)
  else
    match cfg.max_items_per_level with
    | some m => (es.take m, decide (es.length > m))
    | none => (es, false)

/-- `self.config.max_items_per_level` as the slice bound used at line 150
(`entries[max_items:]`); only read when `has_more` is true, in which case
the cap is `some m`. -/
def capM (cfg : Config) : Nat := cfg.max_items_per_level.getD 0

/-- The entry emitted for one kept child (filetree_generator.py 131-139).
`relative_path = str(entry.relative_to(root_path.parent))`, which is the
scanned directory's base name joined with the child's name. -/
def childEntry (dirName : String) (c : FSNode) (depth : Nat) : Entry :=
  { path := mkChildPath dirName c.name, depth := depth, isDir := c.isDir,
    name := c.name, hasMore := none }

/-- The synthetic omission entry (filetree_generator.py 148-161): path and
name `"..."`, not a directory, flag = dropped survivors still contain a
file AND the last processed entry is a directory. -/
def omissionEntry (cfg : Config) (depth : Nat) (sorted kept : List FSNode) : Entry :=
  { path := "...", depth := depth, isDir := false, name := "...",
    hasMore := some (((sorted.drop (capM cfg)).any fun c => !c.isDir) &&
                     ((kept.getLast?.map FSNode.isDir).getD false)) }

/-- Concatenation of the per-child blocks (the `file_tree.append` /
`file_tree.extend` loop). -/
def flatMapE (f : α → List β) : List α → List β
  | [] => []
  | a :: l => f a ++ flatMapE f l

/-- One level of `scan_directory` (filetree_generator.py 84-170), with
the recursive call abstracted as `rec`: depth guard, list and filter,
sort, cap, emit kept children (recursing into directories), then at most
one omission entry. -/
def scanStep (cfg : Config) (rec : FSNode → String → List Entry)
    (node : FSNode) (fullPath : String) (depth : Nat) : List Entry :=
  if maxDepthReached cfg depth then []
  else
    let sorted := sortedSurvivors cfg fullPath node.children
    let kept := (capSelect cfg depth sorted).1
    let processed := flatMapE (fun c =>
      childEntry node.name c depth ::
        (if c.isDir then rec c (mkChildPath fullPath c.name) else [])) kept
    if (capSelect cfg depth sorted).2 then
      processed ++ [omissionEntry cfg depth sorted kept]
    else processed

/-- `scan_directory` with explicit fuel.  Fuel only bounds the recursion
depth — `scanDirectory` below instantiates it with a sufficient bound,
and `scanFuel_irrel` shows any sufficient fuel gives the same value. -/
def scanFuel (cfg : Config) : Nat → FSNode → String → Nat → List Entry
  | 0, _, _, _ => []
  | fuel + 1, node, fullPath, depth =>
    scanStep cfg (fun c cp => scanFuel cfg fuel c cp (depth + 1)) node fullPath depth

/-- `scan_directory(root_path, current_depth)` on a snapshot: the node
count strictly dominates the recursion depth, so it is sufficient fuel. -/
def scanDirectory (cfg : Config) (node : FSNode) (fullPath : String) (depth : Nat) : List Entry :=
  scanFuel cfg (FSNode.size node) node fullPath depth

/-- What `generate` was invoked on: a valid directory, or an invalid root
(a path that does not exist, or exists but is a file). -/
inductive RootTarget where
  | dirAt (node : FSNode)
  | fileAt (name : String)
  | missing (name : String)
deriving DecidableEq

/-- `root_path.name` used for the display root line. -/
def RootTarget.rootName : RootTarget → String
  | .dirAt node => node.name
  | .fileAt n => n
  | .missing n => n

/-- The scan as performed by `generate`: on an invalid root `os.scandir`
raises (`FileNotFoundError` / `NotADirectoryError`), the blanket
`except Exception` at filetree_generator.py 166-168 prints a warning and
the call returns the empty list. -/
def scanRoot (cfg : Config) : RootTarget → List Entry
  | .dirAt node => scanDirectory cfg node node.name 0
  | .fileAt _ => []
  | .missing _ => []

/-! ### `filter_ellipsis_children` (filetree_generator.py 172-206) -/

/-- The loop of `filter_ellipsis_children`, with `skip_until_depth` as
explicit state: an omission entry is kept and sets the state to its depth
plus one; while the state is set, deeper entries are dropped and the first
entry at or above the omission's depth clears the state. -/
def filterGo : List Entry → Option Nat → List Entry
  | [], _ => []
  | e :: rest, st =>
    if e.path == "..." then e :: filterGo rest (some (e.depth + 1))
    else
      match st with
      | some k =>
        if e.depth ≥ k then filterGo rest (some k)
        else e :: filterGo rest none
      | none => e :: filterGo rest none

/-- `filter_ellipsis_children(file_tree)`. -/
def filterEllipsisChildren (tree : List Entry) : List Entry :=
  filterGo tree none

/-! ### Renderers (filetree_generator.py 208-329) -/

/-- `has_next_at_depth(pos, depth)` (lines 234-242): some later entry has
exactly this depth. -/
def hasNextAtDepth (tree : List Entry) (pos d : Nat) : Bool :=
  (tree.drop (pos + 1)).any fun e => e.depth == d

/-- The forward scan of `is_last_in_parent` (lines 250-261). -/
def isLastFrom (rest : List Entry) (d : Nat) : Bool :=
  match rest with
  | [] => true
  | e :: es =>
    if e.depth == d then false
    else if e.depth < d then true
    else isLastFrom es d

/-- `is_last_in_parent(pos, depth)` (lines 244-261). -/
def isLastInParent (tree : List Entry) (pos d : Nat) : Bool :=
  if d == 0 then pos == tree.length - 1
  else isLastFrom (tree.drop (pos + 1)) d

/-- The vertical-bar/blank columns of a line's indentation
(lines 267-274). -/
def lineCols (tree : List Entry) (i : Nat) (depth : Nat) : String :=
  String.join ((List.range depth).map fun d =>
    if hasNextAtDepth tree i d then "│   " else "    ")

/-- One rendered ASCII line for the entry at position `i`
(lines 263-294). -/
def asciiLine (tree : List Entry) (i : Nat) (e : Entry) : String :=
  if e.path == "..." then
    lineCols tree i e.depth ++
      (if e.hasMore.getD false then "├── " else "└── ") ++ "..."
  else
    lineCols tree i e.depth ++
      (if isLastInParent tree i e.depth then "└── " else "├── ") ++
      (e.name ++ if e.isDir then "/" else "")

/-- All lines of the ASCII rendering: root line then one line per entry
(the `if not file_tree` early return produces the same single root
line). -/
def asciiLines (rootName : String) (tree : List Entry) : List String :=
  (rootName ++ "/") :: (tree.enum.map fun p => asciiLine tree p.1 p.2)

/-- `generate_ascii_tree(root_name, file_tree)` (lines 208-296). -/
def generateAsciiTree (rootName : String) (tree : List Entry) : String :=
  joinNL (asciiLines rootName tree)

/-- One rendered Markdown line (lines 317-327); the indent cache is just
`'    ' * (depth + 1)`. -/
def mdLine (e : Entry) : String :=
  repeatStr "    " (e.depth + 1) ++ "- " ++
    (if e.path == "..." then "..."
     else e.name ++ if e.isDir then "/" else "")

/-- `generate_markdown_tree(root_name, file_tree)` (lines 298-329). -/
def generateMarkdownTree (rootName : String) (tree : List Entry) : String :=
  joinNL (("- " ++ rootName ++ "/") :: tree.map mdLine)

/-! ### `generate` (filetree_generator.py 331-374) -/

/-- The result envelope `{content, format, stats}` returned by
`generate`. -/
structure GenResult where
  content : String
  format : String
  stats_files : Nat
  stats_dirs : Nat
deriving DecidableEq, Repr

/-- The filtered entry sequence `self.file_tree` computed by `generate`
(lines 345-348). -/
def generateTree (cfg : Config) (t : RootTarget) : List Entry :=
  filterEllipsisChildren (scanRoot cfg t)

/-- `generate(root_path)` (lines 331-374): scan, filter, render the
configured format (unknown formats fall back to ASCII), and count
`stats.files` / `stats.dirs` as the entries of `self.file_tree` whose
`is_dir` is false resp. true. -/
def generate (cfg : Config) (t : RootTarget) : GenResult :=
  let tree := generateTree cfg t
  let rootName := t.rootName
  let cf :=
    if cfg.output_format == "ascii" then (generateAsciiTree rootName tree, "ascii")
    else if cfg.output_format == "markdown" then (generateMarkdownTree rootName tree, "markdown")
    else (generateAsciiTree rootName tree, "ascii")
  { content := cf.1, format := cf.2,
    stats_files := (tree.filter fun e => !e.isDir).length,
    stats_dirs := (tree.filter fun e => e.isDir).length }

/-! ### Generator object state (for the determinism claim)

A `FileTreeGenerator` instance owns two pieces of mutable state: the last
computed `self.file_tree`, and the ignore-pattern cache
`self._ignore_patterns` (filled from the config on first use and reused
afterwards; the derived exact-match set is a function of it).  `generate`
resets `self.file_tree` and scans with the effective pattern list, i.e.
the cached list if present, else the config's list (which then populates
the cache; that the cache stays `None` when no entry was ever examined is
unobservable under the cache invariant `validCache` below). -/

/-- Mutable state of a `FileTreeGenerator` instance. -/
structure GenState where
  file_tree : List Entry
  cache : Option (List String)
deriving DecidableEq, Repr

/-- `generate` as a state-passing function on the generator object. -/
def generateSt (cfg : Config) (t : RootTarget) (s : GenState) : GenResult × GenState :=
  let pats := s.cache.getD cfg.ignore_patterns
  let cfgEff := { cfg with ignore_patterns := pats }
  (generate cfgEff t,
   { file_tree := generateTree cfgEff t, cache := some pats })

/-- States reachable while the generator's config is unchanged: the cache
is either unfilled or holds the config's pattern list. -/
def validCache (cfg : Config) (s : GenState) : Prop :=
  s.cache = none ∨ s.cache = some cfg.ignore_patterns

/-- Number of omission entries at depth `d` in an entry sequence. -/
def countOm (d : Nat) (tree : List Entry) : Nat :=
  (tree.filter fun e => e.path == "..." && e.depth == d).length

-- sanity checks (concrete evaluation of the embedded scan)
example :
    scanRoot
      { ignore_hidden := true, ignore_patterns := [], max_depth := some 4,
        max_items_per_level := some 15, unlimit_root_items := true,
        output_format := "ascii" }
      (.dirAt (.dir "root" [.file "b.txt", .dir "A" [], .dir ".git" []])) =
    [{ path := "root/A", depth := 0, isDir := true, name := "A", hasMore := none },
     { path := "root/b.txt", depth := 0, isDir := false, name := "b.txt", hasMore := none }] := by
  decide

example :
    (generate
      { ignore_hidden := true, ignore_patterns := [], max_depth := none,
        max_items_per_level := none, unlimit_root_items := true,
        output_format := "ascii" }
      (.dirAt (.dir "root" [.file "b.txt", .dir "A" [], .dir ".git" []]))).content =
    "root/\n├── A/\n└── b.txt" := by decide

example :
    (generate
      { ignore_hidden := true, ignore_patterns := [], max_depth := none,
        max_items_per_level := none, unlimit_root_items := true,
        output_format := "markdown" }
      (.dirAt (.dir "root" [.dir "src" [.file "x.py"]]))).content =
    "- root/\n    - src/\n        - x.py" := by decide

example :
    (generate
      { ignore_hidden := true, ignore_patterns := ["*.log"], max_depth := some 4,
        max_items_per_level := some 15, unlimit_root_items := true,
        output_format := "ascii" }
      (.dirAt (.dir "root" [.file "a.log", .file "a.txt"]))).content =
    "root/\n└── a.txt" := by decide

example :
    (generate
      { ignore_hidden := true, ignore_patterns := [], max_depth := some 4,
        max_items_per_level := some 3, unlimit_root_items := true,
        output_format := "ascii" }
      (.dirAt (.dir "root" [.dir "sub" [.file "e", .file "d", .file "c", .file "b", .file "a"]]))).content =
    "root/\n├── sub/\n    ├── a\n    ├── b\n    ├── c\n    └── ..." := by decide

/-! ## Helper lemmas -/

theorem mem_flatMapE {α β : Type} {f : α → List β} {l : List α} {b : β} :
    b ∈ flatMapE f l ↔ ∃ a ∈ l, b ∈ f a := by
  induction l with
  | nil => simp [flatMapE]
  | cons a l ih =>
    simp only [flatMapE, List.mem_append, ih, List.mem_cons]
    constructor
    · rintro (h | ⟨a', ha', hb⟩)
      · exact ⟨a, Or.inl rfl, h⟩
      · exact ⟨a', Or.inr ha', hb⟩
    · rintro ⟨a', (rfl | ha'), hb⟩
      · exact Or.inl hb
      · exact Or.inr ⟨a', ha', hb⟩

theorem flatMapE_congr {α β : Type} {f g : α → List β} {l : List α}
    (h : ∀ a ∈ l, f a = g a) : flatMapE f l = flatMapE g l := by
  induction l with
  | nil => rfl
  | cons a l ih =>
    simp only [flatMapE]
    rw [h a (by simp), ih (fun x hx => h x (by simp [hx]))]

theorem mem_pyInsert {α : Type} {le : α → α → Bool} {a b : α} {l : List α} :
    b ∈ pyInsert le a l ↔ b = a ∨ b ∈ l := by
  induction l with
  | nil => simp [pyInsert]
  | cons c l ih =>
    simp only [pyInsert]
    split <;> simp only [List.mem_cons, ih] <;> tauto

theorem mem_pySort {α : Type} {le : α → α → Bool} {l : List α} {b : α} :
    b ∈ pySort le l ↔ b ∈ l := by
  induction l with
  | nil => simp [pySort]
  | cons a l ih => simp [pySort, mem_pyInsert, ih]

theorem pairwise_pyInsert {α : Type} {le : α → α → Bool}
    (htot : ∀ x y, le x y = true ∨ le y x = true)
    (htrans : ∀ x y z, le x y = true → le y z = true → le x z = true)
    {a : α} {l : List α} (h : l.Pairwise (fun x y => le x y = true)) :
    (pyInsert le a l).Pairwise (fun x y => le x y = true) := by
  induction l with
  | nil => simp [pyInsert]
  | cons b l ih =>
    rcases h with - | ⟨hb, hl⟩
    simp only [pyInsert]
    split
    case isTrue hcond =>
      refine List.Pairwise.cons ?_ (ih hl)
      intro y hy
      rcases mem_pyInsert.mp hy with rfl | hy'
      · have h' := hcond
        simp only [Bool.and_eq_true] at h'
        exact h'.1
      · exact hb y hy'
    case isFalse hcond =>
      have hab : le a b = true := by
        cases h1 : le a b with
        | true => rfl
        | false =>
          exfalso
          have h2 : le b a = true := (htot a b).resolve_left (by simp [h1])
          exact hcond (by simp [h1, h2])
      refine List.Pairwise.cons ?_ (List.Pairwise.cons hb hl)
      intro y hy
      rcases List.mem_cons.mp hy with rfl | hy'
      · exact hab
      · exact htrans a b y hab (hb y hy')

theorem pairwise_pySort {α : Type} {le : α → α → Bool}
    (htot : ∀ x y, le x y = true ∨ le y x = true)
    (htrans : ∀ x y z, le x y = true → le y z = true → le x z = true)
    (l : List α) : (pySort le l).Pairwise (fun x y => le x y = true) := by
  induction l with
  | nil => simp [pySort]
  | cons a l ih => exact pairwise_pyInsert htot htrans ih

theorem charListLE_cons {x y : Char} {xs ys : List Char} :
    charListLE (x :: xs) (y :: ys) = true ↔
      (x.toNat < y.toNat ∨ (x.toNat = y.toNat ∧ charListLE xs ys = true)) := by
  simp only [charListLE]
  by_cases h1 : x.toNat < y.toNat
  · rw [if_pos h1]
    simp [h1]
  · by_cases h2 : y.toNat < x.toNat
    · rw [if_neg h1, if_pos h2]
      constructor
      · intro h
        exact absurd h (by simp)
      · intro h
        exfalso
        rcases h with h | ⟨h, -⟩ <;> omega
    · have hxy : x.toNat = y.toNat := by omega
      rw [if_neg h1, if_neg h2]
      constructor
      · intro h
        exact Or.inr ⟨hxy, h⟩
      · intro h
        rcases h with h | ⟨-, h⟩
        · omega
        · exact h

theorem charListLE_total : ∀ (a b : List Char),
    charListLE a b = true ∨ charListLE b a = true := by
  intro a
  induction a with
  | nil => intro b; left; simp [charListLE]
  | cons x xs ih =>
    intro b
    cases b with
    | nil => right; simp [charListLE]
    | cons y ys =>
      rcases Nat.lt_trichotomy x.toNat y.toNat with h | h | h
      · left; exact charListLE_cons.mpr (Or.inl h)
      · rcases ih ys with h' | h'
        · left; exact charListLE_cons.mpr (Or.inr ⟨h, h'⟩)
        · right; exact charListLE_cons.mpr (Or.inr ⟨h.symm, h'⟩)
      · right; exact charListLE_cons.mpr (Or.inl h)

theorem charListLE_trans : ∀ (a b c : List Char),
    charListLE a b = true → charListLE b c = true → charListLE a c = true := by
  intro a
  induction a with
  | nil => intro b c _ _; simp [charListLE]
  | cons x xs ih =>
    intro b c hab hbc
    cases b with
    | nil => simp [charListLE] at hab
    | cons y ys =>
      cases c with
      | nil => simp [charListLE] at hbc
      | cons z zs =>
        rcases charListLE_cons.mp hab with h1 | ⟨h1, h1'⟩ <;>
          rcases charListLE_cons.mp hbc with h2 | ⟨h2, h2'⟩
        · exact charListLE_cons.mpr (Or.inl (by omega))
        · exact charListLE_cons.mpr (Or.inl (by omega))
        · exact charListLE_cons.mpr (Or.inl (by omega))
        · exact charListLE_cons.mpr (Or.inr ⟨by omega, ih ys zs h1' h2'⟩)

theorem keyLE_total : ∀ a b : Bool × String, keyLE a b = true ∨ keyLE b a = true := by
  rintro ⟨x, s⟩ ⟨y, t⟩
  simp only [keyLE, strLE]
  cases x <;> cases y <;> simp
  · exact charListLE_total s.data t.data
  · exact charListLE_total s.data t.data

theorem keyLE_trans : ∀ a b c : Bool × String,
    keyLE a b = true → keyLE b c = true → keyLE a c = true := by
  rintro ⟨x, s⟩ ⟨y, t⟩ ⟨z, u⟩ hab hbc
  simp only [keyLE, strLE] at *
  cases x <;> cases y <;> cases z <;> simp_all
  · exact charListLE_trans _ _ _ hab hbc
  · exact charListLE_trans _ _ _ hab hbc

theorem childLE_total : ∀ a b : FSNode, childLE a b = true ∨ childLE b a = true :=
  fun a b => keyLE_total (childKey a) (childKey b)

theorem childLE_trans : ∀ a b c : FSNode,
    childLE a b = true → childLE b c = true → childLE a c = true :=
  fun a b c => keyLE_trans (childKey a) (childKey b) (childKey c)

theorem mem_capSelect {cfg : Config} {d : Nat} {es : List FSNode} {c : FSNode}
    (h : c ∈ (capSelect cfg d es).1) : c ∈ es := by
  unfold capSelect at h
  split at h
  · exact h
  · split at h
    · exact List.mem_of_mem_take h
    · exact h

theorem mem_sortedSurvivors {cfg : Config} {fullPath : String}
    {children : List FSNode} {c : FSNode}
    (h : c ∈ sortedSurvivors cfg fullPath children) : c ∈ children := by
  unfold sortedSurvivors survivors at h
  exact List.mem_of_mem_filter (mem_pySort.mp h)

theorem size_pos (node : FSNode) : 1 ≤ FSNode.size node := by
  cases node <;> simp [FSNode.size]

theorem size_le_sizeList {c : FSNode} : ∀ {cs : List FSNode},
    c ∈ cs → FSNode.size c ≤ FSNode.sizeList cs := by
  intro cs
  induction cs with
  | nil => intro h; cases h
  | cons a cs ih =>
    intro h
    rcases List.mem_cons.mp h with rfl | h'
    · simp only [FSNode.sizeList]; omega
    · have := ih h'
      simp only [FSNode.sizeList]; omega

theorem size_lt_of_mem_children {c node : FSNode}
    (h : c ∈ node.children) : FSNode.size c < FSNode.size node := by
  cases node with
  | file n => simp [FSNode.children] at h
  | dir n cs =>
    simp only [FSNode.children] at h
    have := size_le_sizeList h
    simp only [FSNode.size]; omega

theorem scanStep_congr {cfg : Config} {rec₁ rec₂ : FSNode → String → List Entry}
    {node : FSNode} {fullPath : String} {d : Nat}
    (h : ∀ c ∈ node.children, ∀ cp, rec₁ c cp = rec₂ c cp) :
    scanStep cfg rec₁ node fullPath d = scanStep cfg rec₂ node fullPath d := by
  unfold scanStep
  cases hmd : maxDepthReached cfg d
  · simp only [hmd, Bool.false_eq_true, if_false]
    have hfm : flatMapE (fun c => childEntry node.name c d ::
          (if c.isDir then rec₁ c (mkChildPath fullPath c.name) else []))
        (capSelect cfg d (sortedSurvivors cfg fullPath node.children)).1 =
        flatMapE (fun c => childEntry node.name c d ::
          (if c.isDir then rec₂ c (mkChildPath fullPath c.name) else []))
        (capSelect cfg d (sortedSurvivors cfg fullPath node.children)).1 := by
      apply flatMapE_congr
      intro c hc
      have hcc : c ∈ node.children := mem_sortedSurvivors (mem_capSelect hc)
      rw [h c hcc]
    rw [hfm]
  · simp [hmd]

theorem scanFuel_irrel (cfg : Config) :
    ∀ f₁ f₂ : Nat, ∀ node fullPath d, FSNode.size node ≤ f₁ → FSNode.size node ≤ f₂ →
    scanFuel cfg f₁ node fullPath d = scanFuel cfg f₂ node fullPath d := by
  intro f₁
  induction f₁ with
  | zero =>
    intro f₂ node _ _ h1 _
    exact absurd h1 (by have := size_pos node; omega)
  | succ g ih =>
    intro f₂ node fullPath d h1 h2
    obtain ⟨g₂, rfl⟩ : ∃ g₂, f₂ = g₂ + 1 := by
      have := size_pos node
      cases f₂ with
      | zero => omega
      | succ k => exact ⟨k, rfl⟩
    simp only [scanFuel]
    apply scanStep_congr
    intro c hc cp
    have hlt := size_lt_of_mem_children hc
    exact ih g₂ c cp (d + 1) (by omega) (by omega)

theorem scanDirectory_eq (cfg : Config) (node : FSNode) (fullPath : String) (d : Nat) :
    scanDirectory cfg node fullPath d =
      scanStep cfg (fun c cp => scanDirectory cfg c cp (d + 1)) node fullPath d := by
  unfold scanDirectory
  obtain ⟨k, hk⟩ : ∃ k, FSNode.size node = k + 1 :=
    ⟨FSNode.size node - 1, by have := size_pos node; omega⟩
  rw [hk]
  simp only [scanFuel]
  apply scanStep_congr
  intro c hc cp
  have hlt := size_lt_of_mem_children hc
  exact scanFuel_irrel cfg k (FSNode.size c) c cp (d + 1) (by omega) (by omega)

theorem data_dots : ("..." : String).data = ['.', '.', '.'] := rfl

theorem mkChildPath_ne_dots (a b : String) : mkChildPath a b ≠ "..." := by
  intro h
  have hmem : '/' ∈ (mkChildPath a b).data := by
    unfold mkChildPath
    simp [String.data_append]
  rw [h, data_dots] at hmem
  simp at hmem

theorem mkChildPath_beq_dots (a b : String) : (mkChildPath a b == "...") = false := by
  cases h : (mkChildPath a b == "...") with
  | false => rfl
  | true => exact absurd (eq_of_beq h) (mkChildPath_ne_dots a b)

theorem childEntry_depth (dn : String) (c : FSNode) (d : Nat) :
    (childEntry dn c d).depth = d := rfl

theorem not_maxDepthReached {cfg : Config} {d : Nat}
    (h : maxDepthReached cfg d = false) :
    ∀ m, cfg.max_depth = some m → d < m := by
  intro m hm
  unfold maxDepthReached at h
  rw [hm] at h
  simp at h
  omega

theorem scanStep_mem_depth {cfg : Config} {rec : FSNode → String → List Entry}
    {node : FSNode} {fullPath : String} {d : Nat}
    (hrec : ∀ c cp e, e ∈ rec c cp →
      d + 1 ≤ e.depth ∧ ∀ m, cfg.max_depth = some m → e.depth < m) :
    ∀ e ∈ scanStep cfg rec node fullPath d,
      d ≤ e.depth ∧ ∀ m, cfg.max_depth = some m → e.depth < m := by
  intro e he
  unfold scanStep at he
  cases hmd : maxDepthReached cfg d with
  | true => simp [hmd] at he
  | false =>
    rw [hmd] at he
    simp only [Bool.false_eq_true, if_false] at he
    have hproc : e ∈ flatMapE (fun c => childEntry node.name c d ::
        (if c.isDir then rec c (mkChildPath fullPath c.name) else []))
        (capSelect cfg d (sortedSurvivors cfg fullPath node.children)).1 →
        d ≤ e.depth ∧ ∀ m, cfg.max_depth = some m → e.depth < m := by
      intro hp
      rcases mem_flatMapE.mp hp with ⟨c, hc, he'⟩
      rcases List.mem_cons.mp he' with rfl | hsub
      · exact ⟨Nat.le_refl d, fun m hm => not_maxDepthReached hmd m hm⟩
      · cases hdir : c.isDir with
        | false => rw [hdir] at hsub; simp at hsub
        | true =>
          rw [hdir] at hsub
          simp only [if_true] at hsub
          have := hrec c _ e hsub
          exact ⟨by omega, this.2⟩
    split at he
    · rcases List.mem_append.mp he with hp | hom
      · exact hproc hp
      · simp only [List.mem_singleton] at hom
        subst hom
        exact ⟨Nat.le_refl d, fun m hm => not_maxDepthReached hmd m hm⟩
    · exact hproc he

theorem scanFuel_mem_depth (cfg : Config) :
    ∀ (fuel : Nat) (node : FSNode) (fullPath : String) (d : Nat) (e : Entry),
    e ∈ scanFuel cfg fuel node fullPath d →
    d ≤ e.depth ∧ ∀ m, cfg.max_depth = some m → e.depth < m := by
  intro fuel
  induction fuel with
  | zero => intro node fp d e he; simp [scanFuel] at he
  | succ g ih =>
    intro node fp d e he
    exact scanStep_mem_depth (fun c cp e' he' => ih c cp (d + 1) e' he') e he

theorem scanDirectory_mem_depth (cfg : Config) (node : FSNode) (fullPath : String)
    (d : Nat) (e : Entry) (he : e ∈ scanDirectory cfg node fullPath d) :
    d ≤ e.depth ∧ ∀ m, cfg.max_depth = some m → e.depth < m :=
  scanFuel_mem_depth cfg (FSNode.size node) node fullPath d e he


theorem scanStep_chain {cfg : Config} {rec : FSNode → String → List Entry}
    {node : FSNode} {fullPath : String} {d : Nat}
    (hrecm : ∀ c cp e, e ∈ rec c cp → d + 1 ≤ e.depth)
    (hrecc : ∀ c cp, List.Chain' (fun a b => a.path = "..." → b.depth ≤ a.depth) (rec c cp)) :
    List.Chain' (fun a b => a.path = "..." → b.depth ≤ a.depth)
      (scanStep cfg rec node fullPath d) := by
  unfold scanStep
  cases hmd : maxDepthReached cfg d with
  | true => simp [hmd]
  | false =>
    simp only [Bool.false_eq_true, if_false]
    have hB : ∀ c : FSNode,
        List.Chain' (fun a b => a.path = "..." → b.depth ≤ a.depth)
          (childEntry node.name c d ::
            (if c.isDir then rec c (mkChildPath fullPath c.name) else [])) ∧
        (∀ e ∈ childEntry node.name c d ::
            (if c.isDir then rec c (mkChildPath fullPath c.name) else []), d ≤ e.depth) := by
      intro c
      constructor
      · rw [List.chain'_cons']
        constructor
        · intro y _ hxp
          exact absurd hxp (mkChildPath_ne_dots node.name c.name)
        · cases hdir : c.isDir with
          | false => simp
          | true =>
            simp only [if_true]
            exact hrecc c _
      · intro e he
        rcases List.mem_cons.mp he with rfl | hsub
        · exact Nat.le_refl d
        · cases hdir : c.isDir with
          | false => rw [hdir] at hsub; simp at hsub
          | true =>
            rw [hdir] at hsub
            simp only [if_true] at hsub
            have := hrecm c _ e hsub
            omega
    have hhead : ∀ (ks : List FSNode) (y : Entry),
        (flatMapE (fun c => childEntry node.name c d ::
          (if c.isDir then rec c (mkChildPath fullPath c.name) else [])) ks).head? = some y →
        y.depth = d := by
      intro ks
      cases ks with
      | nil => intro y h; simp [flatMapE] at h
      | cons c ks =>
        intro y h
        simp only [flatMapE, List.cons_append, List.head?_cons, Option.some.injEq] at h
        rw [← h]
        rfl
    have hmain : ∀ ks : List FSNode,
        List.Chain' (fun a b => a.path = "..." → b.depth ≤ a.depth)
          (flatMapE (fun c => childEntry node.name c d ::
            (if c.isDir then rec c (mkChildPath fullPath c.name) else [])) ks) ∧
        (∀ e ∈ flatMapE (fun c => childEntry node.name c d ::
            (if c.isDir then rec c (mkChildPath fullPath c.name) else [])) ks, d ≤ e.depth) := by
      intro ks
      induction ks with
      | nil =>
        refine ⟨List.chain'_nil, ?_⟩
        intro e he
        simp [flatMapE] at he
      | cons c ks ih =>
        constructor
        · show List.Chain' _ (_ ++ _)
          apply List.Chain'.append (hB c).1 ih.1
          intro x hx y hy
          have hxm := List.mem_of_mem_getLast? hx
          have hyd : y.depth = d := hhead ks y (Option.mem_def.mp hy)
          intro _
          rw [hyd]
          exact (hB c).2 x hxm
        · intro e he
          simp only [flatMapE] at he
          rcases List.mem_append.mp he with h | h
          · exact (hB c).2 e h
          · exact ih.2 e h
    cases hcap : (capSelect cfg d (sortedSurvivors cfg fullPath node.children)).2 with
    | false =>
      simp only [Bool.false_eq_true, if_false]
      exact (hmain _).1
    | true =>
      simp only [if_true]
      apply List.Chain'.append (hmain _).1 (List.chain'_singleton _)
      intro x hx y hy
      have hxd : d ≤ x.depth := (hmain _).2 x (List.mem_of_mem_getLast? hx)
      have hy' : y = omissionEntry cfg d (sortedSurvivors cfg fullPath node.children)
          (capSelect cfg d (sortedSurvivors cfg fullPath node.children)).1 := by
        simp only [List.head?_cons, Option.mem_def, Option.some.injEq] at hy
        exact hy.symm
      intro _
      rw [hy']
      exact hxd

theorem scanFuel_chain (cfg : Config) :
    ∀ (fuel : Nat) (node : FSNode) (fullPath : String) (d : Nat),
    List.Chain' (fun a b => a.path = "..." → b.depth ≤ a.depth)
      (scanFuel cfg fuel node fullPath d) := by
  intro fuel
  induction fuel with
  | zero =>
    intro node fp d
    simp only [scanFuel]
    exact List.chain'_nil
  | succ g ih =>
    intro node fp d
    simp only [scanFuel]
    exact scanStep_chain
      (fun c cp e he => (scanFuel_mem_depth cfg g c cp (d + 1) e he).1)
      (fun c cp => ih c cp (d + 1))

theorem filterGo_eq_self :
    ∀ L : List Entry,
    List.Chain' (fun a b => a.path = "..." → b.depth ≤ a.depth) L →
    filterGo L none = L ∧
      ∀ k, (∀ y, L.head? = some y → y.depth < k) → filterGo L (some k) = L := by
  intro L
  induction L with
  | nil => intro _; exact ⟨rfl, fun _ _ => rfl⟩
  | cons e rest ih =>
    intro hch
    have hpair := List.chain'_cons'.mp hch
    obtain ⟨ihn, ihs⟩ := ih hpair.2
    have hdotscase : (e.path == "...") = true →
        filterGo rest (some (e.depth + 1)) = rest := by
      intro hdots
      apply ihs
      intro y hy
      have := hpair.1 y (Option.mem_def.mpr hy) (eq_of_beq hdots)
      omega
    constructor
    · simp only [filterGo]
      by_cases hdots : (e.path == "...") = true
      · rw [if_pos hdots, hdotscase hdots]
      · rw [if_neg hdots]
        show e :: filterGo rest none = e :: rest
        rw [ihn]
    · intro k hk
      simp only [filterGo]
      by_cases hdots : (e.path == "...") = true
      · rw [if_pos hdots, hdotscase hdots]
      · rw [if_neg hdots]
        have hek : e.depth < k := hk e rfl
        show (if e.depth ≥ k then filterGo rest (some k) else e :: filterGo rest none) = e :: rest
        rw [if_neg (by omega), ihn]

/-! ## Claim theorems -/

/-- C4: the entry sequence produced by a scan contains no descendant of an
omission marker — the entry immediately following an omission entry at
depth `d` is at depth at most `d` (hence no entry deeper than `d` occurs
before the next entry at depth ≤ d), and consequently the
`filter_ellipsis_children` post-pass returns `scan_directory`'s output
unchanged: it is redundant by construction. -/
theorem c4_no_descendant_of_omission (cfg : Config) (t : RootTarget) :
    List.Chain' (fun a b => a.path = "..." → b.depth ≤ a.depth) (scanRoot cfg t) ∧
    filterEllipsisChildren (scanRoot cfg t) = scanRoot cfg t := by
  have hch : List.Chain' (fun a b => a.path = "..." → b.depth ≤ a.depth) (scanRoot cfg t) := by
    cases t with
    | dirAt node => exact scanFuel_chain cfg (FSNode.size node) node node.name 0
    | fileAt n => exact List.chain'_nil
    | missing n => exact List.chain'_nil
  exact ⟨hch, (filterGo_eq_self _ hch).1⟩

/-- C7: when `max_depth = m` is set, every entry of the scan has depth
strictly below `m`, i.e. at most `m - 1`; no entry at depth `m` or deeper
ever appears (the depth guard stops recursion without suppressing the
directory's own entry, which was emitted one level up). -/
theorem c7_max_depth_bound (cfg : Config) (t : RootTarget) (m : Nat) (e : Entry)
    (hm : cfg.max_depth = some m) (he : e ∈ scanRoot cfg t) :
    e.depth < m ∧ e.depth ≤ m - 1 := by
  cases t with
  | dirAt node =>
    have h2 := (scanDirectory_mem_depth cfg node node.name 0 e he).2 m hm
    exact ⟨h2, by omega⟩
  | fileAt n => simp [scanRoot] at he
  | missing n => simp [scanRoot] at he

/-- Witness for C7 at a concrete scan: a depth-2 limit on a three-level
tree keeps the depth-1 entry and the bound holds there. -/
theorem c7_witness :
    ({ path := "a/b", depth := 1, isDir := true, name := "b", hasMore := none } : Entry).depth < 2 ∧
    ({ path := "a/b", depth := 1, isDir := true, name := "b", hasMore := none } : Entry).depth ≤ 2 - 1 :=
  c7_max_depth_bound
    { ignore_hidden := true, ignore_patterns := [], max_depth := some 2,
      max_items_per_level := some 15, unlimit_root_items := true, output_format := "ascii" }
    (.dirAt (.dir "r" [.dir "a" [.dir "b" [.file "c"]]])) 2
    { path := "a/b", depth := 1, isDir := true, name := "b", hasMore := none }
    rfl (by decide)

theorem scanStep_filter_sib {cfg : Config} {rec : FSNode → String → List Entry}
    {node : FSNode} {fullPath : String} {d : Nat}
    (hrec : ∀ c cp e, e ∈ rec c cp → d + 1 ≤ e.depth) :
    (scanStep cfg rec node fullPath d).filter
        (fun e => e.depth == d && !(e.path == "...")) =
      if maxDepthReached cfg d then []
      else ((capSelect cfg d (sortedSurvivors cfg fullPath node.children)).1).map
        (fun c => childEntry node.name c d) := by
  unfold scanStep
  cases hmd : maxDepthReached cfg d with
  | true => simp
  | false =>
    simp only [Bool.false_eq_true, if_false]
    have hblocks : ∀ ks : List FSNode,
        (flatMapE (fun c => childEntry node.name c d ::
          (if c.isDir then rec c (mkChildPath fullPath c.name) else [])) ks).filter
          (fun e => e.depth == d && !(e.path == "...")) =
        ks.map (fun c => childEntry node.name c d) := by
      intro ks
      induction ks with
      | nil => rfl
      | cons c ks ih =>
        simp only [flatMapE, List.filter_append, List.filter_cons]
        have hce : (((childEntry node.name c d).depth == d) &&
            !((childEntry node.name c d).path == "...")) = true := by
          simp [childEntry, mkChildPath_beq_dots]
        rw [hce]
        have hsub : (if c.isDir then rec c (mkChildPath fullPath c.name) else []).filter
            (fun e => e.depth == d && !(e.path == "...")) = [] := by
          apply List.filter_eq_nil_iff.mpr
          intro e he
          cases hdir : c.isDir with
          | false => rw [hdir] at he; simp at he
          | true =>
            rw [hdir] at he
            simp only [if_true] at he
            have := hrec c _ e he
            simp only [Bool.and_eq_true, Bool.not_eq_true', beq_iff_eq]
            intro hdep
            omega
        rw [hsub, ih]
        simp [List.map_cons]
    have homfilter : ((fun e => e.depth == d && !(e.path == "...")) <|
        omissionEntry cfg d (sortedSurvivors cfg fullPath node.children)
          (capSelect cfg d (sortedSurvivors cfg fullPath node.children)).1) = false := by
      simp [omissionEntry]
    cases hcap : (capSelect cfg d (sortedSurvivors cfg fullPath node.children)).2 with
    | false =>
      simp only [Bool.false_eq_true, if_false]
      exact hblocks _
    | true =>
      simp only [if_true, List.filter_append, hblocks]
      simp [omissionEntry]

/-- C8: sort invariant for siblings.  Among the sibling entries a scan
call emits for one directory (the real, non-omission entries at that
call's depth — the synthetic `...` marker summarises siblings rather than
being one), a directory entry always precedes a file entry, and among
same-kind siblings the order is case-insensitive lexical by name. -/
theorem c8_sibling_sort_invariant (cfg : Config) (node : FSNode)
    (fullPath : String) (d : Nat) :
    ((scanDirectory cfg node fullPath d).filter
        (fun e => e.depth == d && !(e.path == "..."))).Pairwise
      (fun a b => (b.isDir = true → a.isDir = true) ∧
                  (a.isDir = b.isDir → strLE (strLower a.name) (strLower b.name) = true)) := by
  rw [scanDirectory_eq,
    scanStep_filter_sib (fun c cp e he => (scanDirectory_mem_depth cfg c cp (d + 1) e he).1)]
  cases hmd : maxDepthReached cfg d with
  | true => simp
  | false =>
    simp only [Bool.false_eq_true, if_false]
    rw [List.pairwise_map]
    have hsorted : (sortedSurvivors cfg fullPath node.children).Pairwise
        (fun a b => childLE a b = true) :=
      pairwise_pySort childLE_total childLE_trans _
    have hsub : ((capSelect cfg d (sortedSurvivors cfg fullPath node.children)).1).Sublist
        (sortedSurvivors cfg fullPath node.children) := by
      unfold capSelect
      split
      · exact List.Sublist.refl _
      · split
        · exact List.take_sublist _ _
        · exact List.Sublist.refl _
    refine (List.Pairwise.sublist hsub hsorted).imp ?_
    intro a b hab
    unfold childLE childKey keyLE at hab
    dsimp only at hab
    dsimp only [childEntry]
    constructor
    · intro hbdir
      rw [hbdir] at hab
      cases had : a.isDir with
      | false => rw [had] at hab; simp at hab
      | true => rfl
    · intro heq
      rw [heq] at hab
      simpa using hab

theorem countOm_append (d : Nat) (l₁ l₂ : List Entry) :
    countOm d (l₁ ++ l₂) = countOm d l₁ + countOm d l₂ := by
  unfold countOm
  rw [List.filter_append, List.length_append]

theorem countOm_blocks_zero (rec : FSNode → String → List Entry)
    (node : FSNode) (fullPath : String) (d : Nat)
    (hrec : ∀ c cp e, e ∈ rec c cp → d + 1 ≤ e.depth) (ks : List FSNode) :
    countOm d (flatMapE (fun c => childEntry node.name c d ::
      (if c.isDir then rec c (mkChildPath fullPath c.name) else [])) ks) = 0 := by
  unfold countOm
  have hnil : (flatMapE (fun c => childEntry node.name c d ::
      (if c.isDir then rec c (mkChildPath fullPath c.name) else [])) ks).filter
      (fun e => e.path == "..." && e.depth == d) = [] := by
    apply List.filter_eq_nil_iff.mpr
    intro e he
    rcases mem_flatMapE.mp he with ⟨c, hc, he'⟩
    rcases List.mem_cons.mp he' with rfl | hsub
    · simp [childEntry, mkChildPath_beq_dots]
    · cases hdir : c.isDir with
      | false => rw [hdir] at hsub; simp at hsub
      | true =>
        rw [hdir] at hsub
        simp only [if_true] at hsub
        have := hrec c _ e hsub
        simp only [Bool.and_eq_true, beq_iff_eq]
        rintro ⟨-, h2⟩
        omega
  rw [hnil]
  rfl

theorem countOm_omission (cfg : Config) (d : Nat) (s k : List FSNode) :
    countOm d [omissionEntry cfg d s k] = 1 := by
  simp [countOm, omissionEntry]

theorem scanDirectory_countOm_le_one (cfg : Config) (node : FSNode)
    (fp : String) (d : Nat) :
    countOm d (scanDirectory cfg node fp d) ≤ 1 := by
  rw [scanDirectory_eq]
  unfold scanStep
  cases hmd : maxDepthReached cfg d with
  | true => simp [countOm]
  | false =>
    simp only [Bool.false_eq_true, if_false]
    have hz := countOm_blocks_zero (fun c cp => scanDirectory cfg c cp (d + 1)) node fp d
      (fun c cp e he => (scanDirectory_mem_depth cfg c cp (d + 1) e he).1)
      (capSelect cfg d (sortedSurvivors cfg fp node.children)).1
    cases hcap : (capSelect cfg d (sortedSurvivors cfg fp node.children)).2 with
    | false =>
      simp only [Bool.false_eq_true, if_false]
      rw [hz]
      exact Nat.zero_le 1
    | true =>
      simp only [if_true]
      rw [countOm_append, hz, countOm_omission]

theorem cap_branch_cond {cfg : Config} {d : Nat}
    (h : d = 0 → cfg.unlimit_root_items = false) :
    (d == 0 && cfg.unlimit_root_items) = false := by
  by_cases hd0 : d = 0
  · subst hd0
    simp [h rfl]
  · have hb : (d == 0) = false := by
      cases hb : (d == 0) with
      | false => rfl
      | true => exact absurd (eq_of_beq hb) hd0
    simp [hb]

theorem capSelect_capped {cfg : Config} {d N : Nat} (es : List FSNode)
    (hN : cfg.max_items_per_level = some N)
    (h0 : (d == 0 && cfg.unlimit_root_items) = false) :
    capSelect cfg d es = (es.take N, decide (es.length > N)) := by
  unfold capSelect
  rw [if_neg (by rw [h0]; simp), hN]

theorem capSelect_root (cfg : Config) (es : List FSNode)
    (hu : cfg.unlimit_root_items = true) :
    capSelect cfg 0 es = (es, false) := by
  unfold capSelect
  rw [if_pos (by simp [hu])]

/-- C5: at a non-root level with cap `N` (1 ≤ N < K surviving children),
the scan emits exactly the first `N` sorted children as real entries
(each followed by its recursively scanned subtree) and then exactly one
omission entry (name `...`, kind File) at the same depth, appended after
all kept children and their subtrees; at most one omission entry is ever
produced per scanned directory; and at depth 0 with `unlimit_root_items`
all children are kept and no omission entry is produced. -/
theorem c5_cap_first_n_and_one_omission (cfg : Config) (node : FSNode)
    (fullPath : String) (d N : Nat)
    (hN : cfg.max_items_per_level = some N) (hN1 : 1 ≤ N) (hd : d ≠ 0)
    (hmd : maxDepthReached cfg d = false)
    (hK : N < (sortedSurvivors cfg fullPath node.children).length) :
    (scanDirectory cfg node fullPath d =
      flatMapE (fun c => childEntry node.name c d ::
        (if c.isDir then scanDirectory cfg c (mkChildPath fullPath c.name) (d + 1) else []))
        ((sortedSurvivors cfg fullPath node.children).take N)
      ++ [omissionEntry cfg d (sortedSurvivors cfg fullPath node.children)
            ((sortedSurvivors cfg fullPath node.children).take N)])
    ∧ countOm d (scanDirectory cfg node fullPath d) = 1
    ∧ (omissionEntry cfg d (sortedSurvivors cfg fullPath node.children)
        ((sortedSurvivors cfg fullPath node.children).take N)).name = "..."
    ∧ (omissionEntry cfg d (sortedSurvivors cfg fullPath node.children)
        ((sortedSurvivors cfg fullPath node.children).take N)).isDir = false
    ∧ (omissionEntry cfg d (sortedSurvivors cfg fullPath node.children)
        ((sortedSurvivors cfg fullPath node.children).take N)).depth = d
    ∧ (∀ (g : Config) (x : FSNode) (p : String) (k : Nat),
        countOm k (scanDirectory g x p k) ≤ 1)
    ∧ (∀ (g : Config) (x : FSNode) (p : String),
        g.unlimit_root_items = true → maxDepthReached g 0 = false →
        scanDirectory g x p 0 =
          flatMapE (fun c => childEntry x.name c 0 ::
            (if c.isDir then scanDirectory g c (mkChildPath p c.name) 1 else []))
            (sortedSurvivors g p x.children)
        ∧ countOm 0 (scanDirectory g x p 0) = 0) := by
  have hcap := capSelect_capped (sortedSurvivors cfg fullPath node.children) hN
    (cap_branch_cond fun h0 => absurd h0 hd)
  have hmore : (capSelect cfg d (sortedSurvivors cfg fullPath node.children)).2 = true := by
    rw [hcap]
    simpa using hK
  have hkept : (capSelect cfg d (sortedSurvivors cfg fullPath node.children)).1 =
      (sortedSurvivors cfg fullPath node.children).take N := by
    rw [hcap]
  have heq : scanDirectory cfg node fullPath d =
      flatMapE (fun c => childEntry node.name c d ::
        (if c.isDir then scanDirectory cfg c (mkChildPath fullPath c.name) (d + 1) else []))
        ((sortedSurvivors cfg fullPath node.children).take N)
      ++ [omissionEntry cfg d (sortedSurvivors cfg fullPath node.children)
            ((sortedSurvivors cfg fullPath node.children).take N)] := by
    rw [scanDirectory_eq]
    unfold scanStep
    rw [if_neg (by simp [hmd])]
    simp only [hkept, hmore, if_true]
  have hcount : countOm d (scanDirectory cfg node fullPath d) = 1 := by
    rw [heq, countOm_append, countOm_omission,
      countOm_blocks_zero (fun c cp => scanDirectory cfg c cp (d + 1)) node fullPath d
        (fun c cp e he => (scanDirectory_mem_depth cfg c cp (d + 1) e he).1)
        ((sortedSurvivors cfg fullPath node.children).take N)]
  refine ⟨heq, hcount, rfl, rfl, rfl, fun g x p k => scanDirectory_countOm_le_one g x p k, ?_⟩
  intro g x p hu hmd'
  have hcap0 := capSelect_root g (sortedSurvivors g p x.children) hu
  have heq0 : scanDirectory g x p 0 =
      flatMapE (fun c => childEntry x.name c 0 ::
        (if c.isDir then scanDirectory g c (mkChildPath p c.name) 1 else []))
        (sortedSurvivors g p x.children) := by
    rw [scanDirectory_eq]
    unfold scanStep
    rw [if_neg (by simp [hmd'])]
    simp only [hcap0, Bool.false_eq_true, if_false]
  refine ⟨heq0, ?_⟩
  rw [heq0]
  exact countOm_blocks_zero (fun c cp => scanDirectory g c cp 1) x p 0
    (fun c cp e he => (scanDirectory_mem_depth g c cp 1 e he).1)
    (sortedSurvivors g p x.children)

theorem scanDirectory_capped_eq (cfg : Config) (node : FSNode)
    (fullPath : String) (d N : Nat)
    (hN : cfg.max_items_per_level = some N)
    (hru : d = 0 → cfg.unlimit_root_items = false)
    (hmd : maxDepthReached cfg d = false)
    (hK : N < (sortedSurvivors cfg fullPath node.children).length) :
    scanDirectory cfg node fullPath d =
      flatMapE (fun c => childEntry node.name c d ::
        (if c.isDir then scanDirectory cfg c (mkChildPath fullPath c.name) (d + 1) else []))
        ((sortedSurvivors cfg fullPath node.children).take N)
      ++ [omissionEntry cfg d (sortedSurvivors cfg fullPath node.children)
            ((sortedSurvivors cfg fullPath node.children).take N)] := by
  have hcap := capSelect_capped (sortedSurvivors cfg fullPath node.children) hN
    (cap_branch_cond hru)
  have hmore : (capSelect cfg d (sortedSurvivors cfg fullPath node.children)).2 = true := by
    rw [hcap]
    simpa using hK
  have hkept : (capSelect cfg d (sortedSurvivors cfg fullPath node.children)).1 =
      (sortedSurvivors cfg fullPath node.children).take N := by
    rw [hcap]
  rw [scanDirectory_eq]
  unfold scanStep
  rw [if_neg (by simp [hmd])]
  simp only [hkept, hmore, if_true]

/-- Witness for C5: cap 1 at depth 1 with two surviving files keeps one
child and produces exactly one omission entry at that depth. -/
theorem c5_witness :
    ({ ignore_hidden := true, ignore_patterns := [], max_depth := none,
       max_items_per_level := some 1, unlimit_root_items := true,
       output_format := "ascii" } : Config).max_items_per_level = some 1
    ∧ (1 : Nat) ≤ 1
    ∧ (1 : Nat) ≠ 0
    ∧ maxDepthReached
        { ignore_hidden := true, ignore_patterns := [], max_depth := none,
          max_items_per_level := some 1, unlimit_root_items := true,
          output_format := "ascii" } 1 = false
    ∧ 1 < (sortedSurvivors
        { ignore_hidden := true, ignore_patterns := [], max_depth := none,
          max_items_per_level := some 1, unlimit_root_items := true,
          output_format := "ascii" } "r/sub"
        (FSNode.dir "sub" [FSNode.file "b", FSNode.file "a"]).children).length
    ∧ countOm 1 (scanDirectory
        { ignore_hidden := true, ignore_patterns := [], max_depth := none,
          max_items_per_level := some 1, unlimit_root_items := true,
          output_format := "ascii" }
        (FSNode.dir "sub" [FSNode.file "b", FSNode.file "a"]) "r/sub" 1) = 1 :=
  ⟨rfl, by decide, by decide, rfl, by decide,
   (c5_cap_first_n_and_one_omission
     { ignore_hidden := true, ignore_patterns := [], max_depth := none,
       max_items_per_level := some 1, unlimit_root_items := true,
       output_format := "ascii" }
     (FSNode.dir "sub" [FSNode.file "b", FSNode.file "a"]) "r/sub" 1 1
     rfl (by decide) (by decide) rfl (by decide)).2.1⟩

/-- C6: at every level where the cap produces an omission entry — any
non-root depth, and depth 0 as well whenever `unlimit_root_items` is off —
the omission entry is the last entry of that scan call, its
connector-hint flag is true iff at least one file exists among the
dropped survivors and the last kept child in sort order is a directory;
and the ASCII renderer draws an omission entry's connector as `├── ` iff
that flag is true and `└── ` otherwise, from the flag alone —
`is_last_in_parent` does not enter the omission line. -/
theorem c6_connector_hint (cfg : Config) (node : FSNode)
    (fullPath : String) (d N : Nat)
    (hN : cfg.max_items_per_level = some N) (hN1 : 1 ≤ N)
    (hru : d = 0 → cfg.unlimit_root_items = false)
    (hmd : maxDepthReached cfg d = false)
    (hK : N < (sortedSurvivors cfg fullPath node.children).length) :
    ((scanDirectory cfg node fullPath d).getLast? =
      some (omissionEntry cfg d (sortedSurvivors cfg fullPath node.children)
        ((sortedSurvivors cfg fullPath node.children).take N)))
    ∧ ((omissionEntry cfg d (sortedSurvivors cfg fullPath node.children)
          ((sortedSurvivors cfg fullPath node.children).take N)).hasMore.getD false = true ↔
        ((((sortedSurvivors cfg fullPath node.children).drop N).any fun c => !c.isDir) = true ∧
          ∃ l, ((sortedSurvivors cfg fullPath node.children).take N).getLast? = some l ∧
            l.isDir = true))
    ∧ (∀ (rn : String) (tree : List Entry) (i : Nat) (e : Entry),
        tree[i]? = some e → e.path = "..." →
        (asciiLines rn tree)[i + 1]? =
          some (lineCols tree i e.depth ++
            (if e.hasMore.getD false then "├── " else "└── ") ++ "...")) := by
  have hcapM : capM cfg = N := by
    unfold capM
    rw [hN]
    rfl
  refine ⟨?_, ?_, ?_⟩
  · rw [scanDirectory_capped_eq cfg node fullPath d N hN hru hmd hK]
    exact List.getLast?_concat _
  · unfold omissionEntry
    rw [hcapM]
    simp only [Option.getD_some, Bool.and_eq_true]
    constructor
    · rintro ⟨h1, h2⟩
      refine ⟨h1, ?_⟩
      cases hl : ((sortedSurvivors cfg fullPath node.children).take N).getLast? with
      | none => rw [hl] at h2; simp at h2
      | some l =>
        rw [hl] at h2
        simp at h2
        exact ⟨l, rfl, h2⟩
    · rintro ⟨h1, l, hl, hdir⟩
      refine ⟨h1, ?_⟩
      rw [hl]
      simpa using hdir
  · intro rn tree i e hi hdots
    unfold asciiLines
    rw [List.getElem?_cons_succ, List.getElem?_map, List.getElem?_enum, hi]
    simp only [Option.map_some']
    unfold asciiLine
    rw [if_pos (by simp [hdots])]

/-- Witness for C6, exercising both a non-root and a root-level
omission.  Depth 1, cap 2 over `[x, a/, b/]`: the file `x` is dropped
and the last kept child `b/` is a directory, so the omission entry sits
last in the scan; the renderer draws `├── ...` for a flagged omission
entry.  Depth 0 with `unlimit_root_items` off and the same children: the
root-level omission entry is last and its connector-hint flag is true. -/
theorem c6_witness :
    ({ ignore_hidden := true, ignore_patterns := [], max_depth := none,
       max_items_per_level := some 2, unlimit_root_items := true,
       output_format := "ascii" } : Config).max_items_per_level = some 2
    ∧ (1 : Nat) ≤ 2
    ∧ ((1 : Nat) = 0 →
        ({ ignore_hidden := true, ignore_patterns := [], max_depth := none,
           max_items_per_level := some 2, unlimit_root_items := true,
           output_format := "ascii" } : Config).unlimit_root_items = false)
    ∧ maxDepthReached
        { ignore_hidden := true, ignore_patterns := [], max_depth := none,
          max_items_per_level := some 2, unlimit_root_items := true,
          output_format := "ascii" } 1 = false
    ∧ 2 < (sortedSurvivors
        { ignore_hidden := true, ignore_patterns := [], max_depth := none,
          max_items_per_level := some 2, unlimit_root_items := true,
          output_format := "ascii" } "r/sub"
        (FSNode.dir "sub" [FSNode.file "x", FSNode.dir "a" [], FSNode.dir "b" []]).children).length
    ∧ ((scanDirectory
        { ignore_hidden := true, ignore_patterns := [], max_depth := none,
          max_items_per_level := some 2, unlimit_root_items := true,
          output_format := "ascii" }
        (FSNode.dir "sub" [FSNode.file "x", FSNode.dir "a" [], FSNode.dir "b" []])
        "r/sub" 1).getLast? =
      some (omissionEntry
        { ignore_hidden := true, ignore_patterns := [], max_depth := none,
          max_items_per_level := some 2, unlimit_root_items := true,
          output_format := "ascii" } 1
        (sortedSurvivors
          { ignore_hidden := true, ignore_patterns := [], max_depth := none,
            max_items_per_level := some 2, unlimit_root_items := true,
            output_format := "ascii" } "r/sub"
          (FSNode.dir "sub" [FSNode.file "x", FSNode.dir "a" [], FSNode.dir "b" []]).children)
        ((sortedSurvivors
          { ignore_hidden := true, ignore_patterns := [], max_depth := none,
            max_items_per_level := some 2, unlimit_root_items := true,
            output_format := "ascii" } "r/sub"
          (FSNode.dir "sub" [FSNode.file "x", FSNode.dir "a" [], FSNode.dir "b" []]).children).take 2)))
    ∧ (asciiLines "r"
        [{ path := "...", depth := 0, isDir := false, name := "...", hasMore := some true }])[0 + 1]? =
      some (lineCols
        [{ path := "...", depth := 0, isDir := false, name := "...", hasMore := some true }] 0 0 ++
        (if ({ path := "...", depth := 0, isDir := false, name := "...",
               hasMore := some true } : Entry).hasMore.getD false then "├── " else "└── ") ++ "...")
    ∧ ({ ignore_hidden := true, ignore_patterns := [], max_depth := none,
         max_items_per_level := some 2, unlimit_root_items := false,
         output_format := "ascii" } : Config).unlimit_root_items = false
    ∧ ((scanDirectory
        { ignore_hidden := true, ignore_patterns := [], max_depth := none,
          max_items_per_level := some 2, unlimit_root_items := false,
          output_format := "ascii" }
        (FSNode.dir "r" [FSNode.file "x", FSNode.dir "a" [], FSNode.dir "b" []])
        "r" 0).getLast? =
      some (omissionEntry
        { ignore_hidden := true, ignore_patterns := [], max_depth := none,
          max_items_per_level := some 2, unlimit_root_items := false,
          output_format := "ascii" } 0
        (sortedSurvivors
          { ignore_hidden := true, ignore_patterns := [], max_depth := none,
            max_items_per_level := some 2, unlimit_root_items := false,
            output_format := "ascii" } "r"
          (FSNode.dir "r" [FSNode.file "x", FSNode.dir "a" [], FSNode.dir "b" []]).children)
        ((sortedSurvivors
          { ignore_hidden := true, ignore_patterns := [], max_depth := none,
            max_items_per_level := some 2, unlimit_root_items := false,
            output_format := "ascii" } "r"
          (FSNode.dir "r" [FSNode.file "x", FSNode.dir "a" [], FSNode.dir "b" []]).children).take 2)))
    ∧ ((omissionEntry
        { ignore_hidden := true, ignore_patterns := [], max_depth := none,
          max_items_per_level := some 2, unlimit_root_items := false,
          output_format := "ascii" } 0
        (sortedSurvivors
          { ignore_hidden := true, ignore_patterns := [], max_depth := none,
            max_items_per_level := some 2, unlimit_root_items := false,
            output_format := "ascii" } "r"
          (FSNode.dir "r" [FSNode.file "x", FSNode.dir "a" [], FSNode.dir "b" []]).children)
        ((sortedSurvivors
          { ignore_hidden := true, ignore_patterns := [], max_depth := none,
            max_items_per_level := some 2, unlimit_root_items := false,
            output_format := "ascii" } "r"
          (FSNode.dir "r" [FSNode.file "x", FSNode.dir "a" [], FSNode.dir "b" []]).children).take 2)
        ).hasMore.getD false = true) :=
  ⟨rfl, by decide, by decide, rfl, by decide,
   (c6_connector_hint
     { ignore_hidden := true, ignore_patterns := [], max_depth := none,
       max_items_per_level := some 2, unlimit_root_items := true,
       output_format := "ascii" }
     (FSNode.dir "sub" [FSNode.file "x", FSNode.dir "a" [], FSNode.dir "b" []])
     "r/sub" 1 2 rfl (by decide) (by decide) rfl (by decide)).1,
   (c6_connector_hint
     { ignore_hidden := true, ignore_patterns := [], max_depth := none,
       max_items_per_level := some 2, unlimit_root_items := true,
       output_format := "ascii" }
     (FSNode.dir "sub" [FSNode.file "x", FSNode.dir "a" [], FSNode.dir "b" []])
     "r/sub" 1 2 rfl (by decide) (by decide) rfl (by decide)).2.2 "r"
     [{ path := "...", depth := 0, isDir := false, name := "...", hasMore := some true }]
     0 { path := "...", depth := 0, isDir := false, name := "...", hasMore := some true }
     rfl rfl,
   rfl,
   (c6_connector_hint
     { ignore_hidden := true, ignore_patterns := [], max_depth := none,
       max_items_per_level := some 2, unlimit_root_items := false,
       output_format := "ascii" }
     (FSNode.dir "r" [FSNode.file "x", FSNode.dir "a" [], FSNode.dir "b" []])
     "r" 0 2 rfl (by decide) (by decide) rfl (by decide)).1,
   (c6_connector_hint
     { ignore_hidden := true, ignore_patterns := [], max_depth := none,
       max_items_per_level := some 2, unlimit_root_items := false,
       output_format := "ascii" }
     (FSNode.dir "r" [FSNode.file "x", FSNode.dir "a" [], FSNode.dir "b" []])
     "r" 0 2 rfl (by decide) (by decide) rfl (by decide)).2.1.mpr
     ⟨by decide, FSNode.dir "b" [], by decide, rfl⟩⟩


theorem contains_exactPatterns (pats : List String) (q : String) :
    (exactPatterns pats).contains q = true ↔ q ∈ pats ∧ isExactPat q = true := by
  have h1 : (exactPatterns pats).contains q = true ↔ q ∈ exactPatterns pats :=
    List.elem_iff
  rw [h1]
  unfold exactPatterns
  rw [List.mem_filter]

/-- C3: `should_ignore` decides exactly the specified predicate: true iff
the hidden rule fires, or the name exactly equals a wildcard-free
non-`/`-suffixed ignore pattern, or some remaining pattern matches under
glob semantics, `/`-suffixed patterns applying only to directories with
the slash stripped and matched against the name or the path, all other
patterns applying unconditionally. -/
theorem c3_should_ignore_spec_equiv (cfg : Config) (name pathStr : String) (isDir : Bool) :
    shouldIgnore cfg name pathStr isDir = shouldIgnoreSpec cfg name pathStr isDir := by
  rw [Bool.eq_iff_iff]
  unfold shouldIgnore shouldIgnoreSpec
  cases hh : (cfg.ignore_hidden && startsWithCh name '.') with
  | true => simp [hh]
  | false =>
    simp only [Bool.false_eq_true, if_false, Bool.false_or]
    by_cases hex : (exactPatterns cfg.ignore_patterns).contains name = true
    · rw [if_pos hex]
      have hn := (contains_exactPatterns cfg.ignore_patterns name).mp hex
      have hany1 : cfg.ignore_patterns.any (fun p => isExactPat p && name == p) = true := by
        rw [List.any_eq_true]
        exact ⟨name, hn.1, by simp [hn.2]⟩
      simp [hany1]
    · rw [if_neg hex]
      have hany1 : cfg.ignore_patterns.any (fun p => isExactPat p && name == p) = false := by
        cases ha : cfg.ignore_patterns.any (fun p => isExactPat p && name == p) with
        | false => rfl
        | true =>
          exfalso
          rw [List.any_eq_true] at ha
          rcases ha with ⟨p, hp, hcond⟩
          simp only [Bool.and_eq_true, beq_iff_eq] at hcond
          exact hex ((contains_exactPatterns cfg.ignore_patterns name).mpr
            ⟨hcond.2 ▸ hp, hcond.2 ▸ hcond.1⟩)
      rw [hany1, Bool.false_or]
      rw [List.any_eq_true, List.any_eq_true]
      constructor
      · rintro ⟨p, hp, hf⟩
        by_cases hc : (exactPatterns cfg.ignore_patterns).contains p = true
        · rw [if_pos hc] at hf
          exact absurd hf (by simp)
        · rw [if_neg hc] at hf
          refine ⟨p, hp, ?_⟩
          have hnot : isExactPat p = false := by
            cases hie : isExactPat p with
            | false => rfl
            | true => exact absurd ((contains_exactPatterns cfg.ignore_patterns p).mpr ⟨hp, hie⟩) hc
          simp only [hnot, Bool.not_false, Bool.true_and]
          exact hf
      · rintro ⟨p, hp, hg⟩
        simp only [Bool.and_eq_true, Bool.not_eq_true'] at hg
        refine ⟨p, hp, ?_⟩
        have hc : (exactPatterns cfg.ignore_patterns).contains p = false := by
          cases hcc : (exactPatterns cfg.ignore_patterns).contains p with
          | false => rfl
          | true =>
            exfalso
            have := (contains_exactPatterns cfg.ignore_patterns p).mp hcc
            rw [this.2] at hg
            exact absurd hg.1 (by simp)
        rw [if_neg (by rw [hc]; simp)]
        exact hg.2

theorem length_filter_not_add (l : List Entry) (p : Entry → Bool) :
    (l.filter fun e => !p e).length + (l.filter p).length = l.length := by
  induction l with
  | nil => rfl
  | cons a l ih =>
    cases hp : p a <;> simp [List.filter_cons, hp] <;> omega

/-- C1 (amended): `stats.files + stats.dirs` equals the number of ALL
entries of the filtered sequence, omission markers included — the code
counts every `self.file_tree` item, and an omission entry's `is_dir` is
False, so omission markers are counted in `stats.files`. -/
theorem c1_stats_sum_counts_all_entries (cfg : Config) (t : RootTarget) :
    (generate cfg t).stats_files + (generate cfg t).stats_dirs = (generateTree cfg t).length
    ∧ (generate cfg t).stats_files = ((generateTree cfg t).filter fun e => !e.isDir).length
    ∧ (generate cfg t).stats_dirs = ((generateTree cfg t).filter fun e => e.isDir).length := by
  refine ⟨?_, rfl, rfl⟩
  exact length_filter_not_add (generateTree cfg t) (fun e => e.isDir)

/-- Counterexample to C1 as stated: with cap 1 at a non-unlimited root
over two files, the filtered sequence holds one real entry plus one
omission entry; `stats.files + stats.dirs` is 2 while the number of
non-omission entries is 1, so the stats do not count only real
entries. -/
theorem c1_counterexample :
    ((generate
        { ignore_hidden := true, ignore_patterns := [], max_depth := some 4,
          max_items_per_level := some 1, unlimit_root_items := false,
          output_format := "ascii" }
        (.dirAt (.dir "r" [.file "a", .file "b"]))).stats_files +
      (generate
        { ignore_hidden := true, ignore_patterns := [], max_depth := some 4,
          max_items_per_level := some 1, unlimit_root_items := false,
          output_format := "ascii" }
        (.dirAt (.dir "r" [.file "a", .file "b"]))).stats_dirs = 2)
    ∧ (((generateTree
        { ignore_hidden := true, ignore_patterns := [], max_depth := some 4,
          max_items_per_level := some 1, unlimit_root_items := false,
          output_format := "ascii" }
        (.dirAt (.dir "r" [.file "a", .file "b"]))).filter
          fun e => !(e.path == "...")).length = 1)
    ∧ (generate
        { ignore_hidden := true, ignore_patterns := [], max_depth := some 4,
          max_items_per_level := some 1, unlimit_root_items := false,
          output_format := "ascii" }
        (.dirAt (.dir "r" [.file "a", .file "b"]))).stats_files +
      (generate
        { ignore_hidden := true, ignore_patterns := [], max_depth := some 4,
          max_items_per_level := some 1, unlimit_root_items := false,
          output_format := "ascii" }
        (.dirAt (.dir "r" [.file "a", .file "b"]))).stats_dirs ≠
      ((generateTree
        { ignore_hidden := true, ignore_patterns := [], max_depth := some 4,
          max_items_per_level := some 1, unlimit_root_items := false,
          output_format := "ascii" }
        (.dirAt (.dir "r" [.file "a", .file "b"]))).filter
          fun e => !(e.path == "...")).length := by
  refine ⟨by decide, by decide, by decide⟩

/-- C2 (amended): an invalid root (missing path, or a path that is a
file) is not fatal and surfaces no error to `generate`'s caller: the
scandir error is caught inside `scan_directory` (a warning is printed),
the scan yields no entries, and `generate` returns a complete envelope
whose content is just the root line of the configured format with zero
stats. -/
theorem c2_invalid_root_yields_empty_envelope (cfg : Config) (n : String) :
    scanRoot cfg (.missing n) = []
    ∧ scanRoot cfg (.fileAt n) = []
    ∧ generate cfg (.missing n) =
        { content := if cfg.output_format == "markdown"
            then generateMarkdownTree n [] else generateAsciiTree n [],
          format := if cfg.output_format == "markdown" then "markdown" else "ascii",
          stats_files := 0, stats_dirs := 0 }
    ∧ generate cfg (.fileAt n) =
        { content := if cfg.output_format == "markdown"
            then generateMarkdownTree n [] else generateAsciiTree n [],
          format := if cfg.output_format == "markdown" then "markdown" else "ascii",
          stats_files := 0, stats_dirs := 0 } := by
  refine ⟨rfl, rfl, ?_, ?_⟩
  · by_cases h1 : (cfg.output_format == "ascii") = true
    · have h2 : (cfg.output_format == "markdown") = false := by
        cases hm : (cfg.output_format == "markdown") with
        | false => rfl
        | true => exact absurd ((eq_of_beq h1).symm.trans (eq_of_beq hm)) (by decide)
      simp [generate, generateTree, scanRoot, filterEllipsisChildren, filterGo,
        RootTarget.rootName, h1, h2]
    · by_cases h2 : (cfg.output_format == "markdown") = true
      · simp [generate, generateTree, scanRoot, filterEllipsisChildren, filterGo,
          RootTarget.rootName, h1, h2]
      · simp [generate, generateTree, scanRoot, filterEllipsisChildren, filterGo,
          RootTarget.rootName, h1, h2]
  · by_cases h1 : (cfg.output_format == "ascii") = true
    · have h2 : (cfg.output_format == "markdown") = false := by
        cases hm : (cfg.output_format == "markdown") with
        | false => rfl
        | true => exact absurd ((eq_of_beq h1).symm.trans (eq_of_beq hm)) (by decide)
      simp [generate, generateTree, scanRoot, filterEllipsisChildren, filterGo,
        RootTarget.rootName, h1, h2]
    · by_cases h2 : (cfg.output_format == "markdown") = true
      · simp [generate, generateTree, scanRoot, filterEllipsisChildren, filterGo,
          RootTarget.rootName, h1, h2]
      · simp [generate, generateTree, scanRoot, filterEllipsisChildren, filterGo,
          RootTarget.rootName, h1, h2]

/-- Counterexample to C2 as stated: on a root path that does not exist,
`generate` still produces a full result envelope (content, format and
stats) instead of failing before scanning. -/
theorem c2_counterexample :
    generate
      { ignore_hidden := true, ignore_patterns := DEFAULT_IGNORE_PATTERNS,
        max_depth := some 4, max_items_per_level := some 15,
        unlimit_root_items := true, output_format := "ascii" }
      (.missing "ghost") =
    { content := "ghost/", format := "ascii", stats_files := 0, stats_dirs := 0 } := by
  decide

/-- C9: scanning an unchanging snapshot twice with the same configuration
yields byte-identical rendered output and identical flattened entry
sequences; the renderers are pure functions of `(root_name, entries)`, and
`generate`'s result does not depend on the generator object's mutable
state (the previous `file_tree` and the ignore-pattern cache, under the
cache invariant of an unchanged config). -/
theorem c9_generate_deterministic (cfg : Config) (t : RootTarget) (s : GenState)
    (h : validCache cfg s) :
    (generateSt cfg t s).1 = generate cfg t
    ∧ (generateSt cfg t ((generateSt cfg t s).2)).1 = (generateSt cfg t s).1
    ∧ ((generateSt cfg t ((generateSt cfg t s).2)).2).file_tree =
        ((generateSt cfg t s).2).file_tree := by
  have hpats : s.cache.getD cfg.ignore_patterns = cfg.ignore_patterns := by
    rcases h with h | h <;> rw [h] <;> rfl
  refine ⟨?_, ?_, ?_⟩ <;> simp only [generateSt, hpats, Option.getD_some]

/-- Witness for C9 on a fresh generator state over a small tree. -/
theorem c9_witness :
    validCache
      { ignore_hidden := true, ignore_patterns := [], max_depth := some 4,
        max_items_per_level := some 15, unlimit_root_items := true,
        output_format := "ascii" } { file_tree := [], cache := none }
    ∧ (generateSt
        { ignore_hidden := true, ignore_patterns := [], max_depth := some 4,
          max_items_per_level := some 15, unlimit_root_items := true,
          output_format := "ascii" }
        (.dirAt (.dir "r" [.file "a"])) { file_tree := [], cache := none }).1 =
      generate
        { ignore_hidden := true, ignore_patterns := [], max_depth := some 4,
          max_items_per_level := some 15, unlimit_root_items := true,
          output_format := "ascii" }
        (.dirAt (.dir "r" [.file "a"])) :=
  ⟨Or.inl rfl,
   (c9_generate_deterministic
     { ignore_hidden := true, ignore_patterns := [], max_depth := some 4,
       max_items_per_level := some 15, unlimit_root_items := true,
       output_format := "ascii" }
     (.dirAt (.dir "r" [.file "a"])) { file_tree := [], cache := none }
     (Or.inl rfl)).1⟩

/-- C10: `from_dict` substitutes finite defaults for absent keys: a
missing `max_depth` yields 4 and a missing `max_items_per_level` yields
15 (not unlimited), while an explicitly stored null yields the unlimited
None; a missing or unrecognized `output_format` yields `'ascii'`. -/
theorem c10_from_dict_defaults (data : StoredConfig) :
    (data.max_depth = none → (Config.from_dict data).max_depth = some 4)
    ∧ (data.max_items_per_level = none → (Config.from_dict data).max_items_per_level = some 15)
    ∧ (data.max_depth = some none → (Config.from_dict data).max_depth = none)
    ∧ (data.max_items_per_level = some none → (Config.from_dict data).max_items_per_level = none)
    ∧ (data.output_format = none → (Config.from_dict data).output_format = "ascii")
    ∧ (∀ s, data.output_format = some s → s ≠ "ascii" → s ≠ "markdown" →
        (Config.from_dict data).output_format = "ascii") := by
  refine ⟨?_, ?_, ?_, ?_, ?_, ?_⟩
  · intro h; simp [Config.from_dict, h]
  · intro h; simp [Config.from_dict, h]
  · intro h; simp [Config.from_dict, h]
  · intro h; simp [Config.from_dict, h]
  · intro h; simp [Config.from_dict, h]
  · intro s hs h1 h2
    have e1 : (s == "ascii") = false := by
      cases hb : (s == "ascii") with
      | false => rfl
      | true => exact absurd (eq_of_beq hb) h1
    have e2 : (s == "markdown") = false := by
      cases hb : (s == "markdown") with
      | false => rfl
      | true => exact absurd (eq_of_beq hb) h2
    simp [Config.from_dict, hs, e1, e2]

/-- Witness for C10: all keys absent gives depth 4, cap 15 and format
ascii; stored nulls give unlimited, and format `'html'` normalises to
ascii. -/
theorem c10_witness :
    (Config.from_dict
      { ignore_hidden := none, ignore_patterns := none, max_depth := none,
        max_items_per_level := none, unlimit_root_items := none,
        output_format := none }).max_depth = some 4
    ∧ (Config.from_dict
      { ignore_hidden := none, ignore_patterns := none, max_depth := none,
        max_items_per_level := none, unlimit_root_items := none,
        output_format := none }).max_items_per_level = some 15
    ∧ (Config.from_dict
      { ignore_hidden := some false, ignore_patterns := some [],
        max_depth := some none, max_items_per_level := some none,
        unlimit_root_items := some true,
        output_format := some "html" }).max_depth = none
    ∧ (Config.from_dict
      { ignore_hidden := some false, ignore_patterns := some [],
        max_depth := some none, max_items_per_level := some none,
        unlimit_root_items := some true,
        output_format := some "html" }).max_items_per_level = none
    ∧ (Config.from_dict
      { ignore_hidden := none, ignore_patterns := none, max_depth := none,
        max_items_per_level := none, unlimit_root_items := none,
        output_format := none }).output_format = "ascii"
    ∧ (Config.from_dict
      { ignore_hidden := some false, ignore_patterns := some [],
        max_depth := some none, max_items_per_level := some none,
        unlimit_root_items := some true,
        output_format := some "html" }).output_format = "ascii" :=
  ⟨(c10_from_dict_defaults _).1 rfl,
   (c10_from_dict_defaults _).2.1 rfl,
   (c10_from_dict_defaults _).2.2.1 rfl,
   (c10_from_dict_defaults _).2.2.2.1 rfl,
   (c10_from_dict_defaults _).2.2.2.2.1 rfl,
   (c10_from_dict_defaults _).2.2.2.2.2 "html" rfl (by decide) (by decide)⟩
